import Mathlib

/-!
Verification development for the otail telemetry viewer.

The Go sources are shallowly embedded: pure functions become Lean
functions, the Bubble Tea update loop becomes explicit state passing on a
model structure, machine integers become Int with explicit wrap-around
where 64-bit overflow matters, and code that can panic returns Option.
External collaborators (the styling helper, the OTLP decoders, the URL
parsing routine, the random draw, the viewport widget) are either
universally quantified function parameters or small models of the
documented library behaviour, so the theorems speak about the code of the
repository itself.
-/

/-- Go strings are modelled as lists of characters. -/
abbrev Str := List Char

/-- Model of Go strings.Split(s, newline): splits around every newline
character. The result always has at least one element, exactly as the Go
function. -/
def splitNl : Str → List Str
  | [] => [[]]
  | c :: cs =>
    if c = '\n' then
      [] :: splitNl cs
    else
      match splitNl cs with
      | [] => [[c]]
      | l :: ls => (c :: l) :: ls

/-! ## Definitions: line-indexed message store (internal/app/store.go) -/

namespace App

/-- telemetry.Message as consumed by internal/app/store.go: it carries the
pretty-printed payload text. -/
structure Message where
  Pretty : Str
deriving DecidableEq, Repr

/-- entry from internal/app/store.go: a message together with its position
in the global line list. Start is inclusive, End exclusive. -/
structure Entry where
  Msg : Message
  Start : Nat
  End : Nat
  lines : List Str
deriving DecidableEq, Repr

/-- store from internal/app/store.go: the entry list plus the flat line
list for one kind. -/
structure Store where
  entries : List Entry
  lines : List Str
deriving DecidableEq, Repr

/-- newStore from internal/app/store.go. -/
def newStore : Store := ⟨[], []⟩

/-- store.append: split the highlighted pretty text into lines, record the
entry range starting at the current flattened length, and append the
lines. HighlightKeys lives in the external ui/common package, so the
embedding is parametric in that function (hk). -/
def Store.append (hk : Str → Str) (s : Store) (msg : Message) : Store :=
  let lines := splitNl (hk msg.Pretty)
  let start := s.lines.length
  { entries := s.entries ++ [⟨msg, start, start + lines.length, lines⟩]
    lines := s.lines ++ lines }

/-- totalLines of the kind partition: the length of the flat line list. -/
def Store.totalLines (s : Store) : Nat := s.lines.length

/-- store.messageForLine: scan the entries from the most recent backward
and return the entry containing the given line index, or none. The Go
index is a machine int and may be negative, hence Int. -/
def Store.messageForLine (s : Store) (line : Int) : Option Entry :=
  s.entries.reverse.find? fun e =>
    decide ((e.Start : Int) ≤ line) && decide (line < (e.End : Int))

/-- A store reachable by a sequence of append calls on a fresh store. -/
def buildStore (hk : Str → Str) (msgs : List Message) : Store :=
  msgs.foldl (Store.append hk) newStore

/-- Contiguity invariant of an entry list: starting at offset n, every
entry begins where the previous one ended, its cached lines are the split
of the highlighted message text, its End is its Start plus its line count,
and the final offset equals the stored line total. -/
def entriesOk (hk : Str → Str) : Nat → List Entry → Nat → Prop
  | n, [], total => n = total
  | n, e :: es, total =>
      e.Start = n ∧ e.lines = splitNl (hk e.Msg.Pretty) ∧
      e.End = n + e.lines.length ∧ entriesOk hk e.End es total

/-- The store invariant: its entry list is contiguous from offset 0 up to
the flat line count. -/
def Store.Ok (hk : Str → Str) (s : Store) : Prop :=
  entriesOk hk 0 s.entries s.lines.length

end App

/-! ## Definitions: classifier (internal/telemetry, Parse) -/

namespace Telemetry

/-- Kind from internal/telemetry: the category of an incoming message. -/
inductive Kind where
  | logs
  | metrics
  | traces
  | unknown
deriving DecidableEq, Repr

/-- Message from internal/telemetry: the canonical form the UI layers
consume, a kind tag plus the indented display lines. -/
structure Message where
  Kind : Kind
  IndentedLines : List Str
deriving DecidableEq, Repr

/-- One OTLP decoder (plog, pmetric or ptrace JSON unmarshaler plus its
matching marshaler), abstracted: unmarshal may fail, payloadLen models
ResourceLogs/ResourceMetrics/ResourceSpans length, marshal may fail. -/
structure Decoder (α : Type) where
  unmarshal : Str → Option α
  payloadLen : α → Nat
  marshal : α → Option Str

/-- The external decoding environment Parse runs against: the three OTLP
decoders plus the generic JSON re-indenter (json.Unmarshal followed by
json.MarshalIndent; none when the bytes are not valid JSON). -/
structure ParseEnv (L M T : Type) where
  logsDec : Decoder L
  metricsDec : Decoder M
  tracesDec : Decoder T
  reindent : Str → Option Str

/-- The pretty helper inside Parse: if the bytes re-indent as JSON, split
the indented text on newlines, otherwise fall back to the raw bytes as a
single line. -/
def pretty (reindent : Str → Option Str) (b : Str) : List Str :=
  match reindent b with
  | some pb => splitNl pb
  | none => [b]

/-- The asMsg helper inside Parse: marshal the decoded value; on marshal
failure show the incoming bytes instead. -/
def asMsg (reindent : Str → Option Str) (kind : Kind) (raw : Str)
    (marshalled : Option Str) : Message :=
  match marshalled with
  | none => ⟨kind, pretty reindent raw⟩
  | some out => ⟨kind, pretty reindent out⟩

/-- One stage of Parse: if the unmarshal succeeds and the payload is
non-empty, produce the message for this kind, otherwise fall through. -/
def tryKind {α : Type} (reindent : Str → Option Str) (dec : Decoder α)
    (kind : Kind) (data : Str) : Option Message :=
  match dec.unmarshal data with
  | some v =>
      if 0 < dec.payloadLen v then some (asMsg reindent kind data (dec.marshal v))
      else none
  | none => none

/-- Parse from internal/telemetry: try logs, then metrics, then traces;
the first kind that decodes with a non-empty payload wins; otherwise the
frame is tagged unknown and pretty-printed generically. -/
def Parse {L M T : Type} (env : ParseEnv L M T) (data : Str) : Message :=
  match tryKind env.reindent env.logsDec Kind.logs data with
  | some m => m
  | none =>
    match tryKind env.reindent env.metricsDec Kind.metrics data with
    | some m => m
    | none =>
      match tryKind env.reindent env.tracesDec Kind.traces data with
      | some m => m
      | none => ⟨Kind.unknown, pretty env.reindent data⟩

/-- Spec-side predicate, written from the words of the specification: a
structured decode succeeds with a non-empty payload. -/
def decodeOk {α : Type} (dec : Decoder α) (data : Str) : Bool :=
  match dec.unmarshal data with
  | some v => decide (0 < dec.payloadLen v)
  | none => false

/-- Spec-side classification policy, written from the words of the
specification: the first kind in the fixed priority order logs, metrics,
traces whose decode succeeds non-empty wins; otherwise unknown. -/
def classifySpec {L M T : Type} (env : ParseEnv L M T) (data : Str) : Kind :=
  if decodeOk env.logsDec data then Kind.logs
  else if decodeOk env.metricsDec data then Kind.metrics
  else if decodeOk env.tracesDec data then Kind.traces
  else Kind.unknown

/-- A concrete decoding environment in which every structured decode
fails, used to exhibit satisfiability of the unknown fallback. -/
def failEnv : ParseEnv Unit Unit Unit :=
  { logsDec := ⟨fun _ => none, fun _ => 0, fun _ => none⟩
    metricsDec := ⟨fun _ => none, fun _ => 0, fun _ => none⟩
    tracesDec := ⟨fun _ => none, fun _ => 0, fun _ => none⟩
    reindent := fun _ => none }

end Telemetry

/-! ## Definitions: backoff policy (internal/transport, part_007) -/

namespace Transport

/-- Twos-complement truncation of an integer to 64 bits, the effect of a
Go int64 overflow. -/
def wrap64 (x : Int) : Int := (x + 2 ^ 63) % 2 ^ 64 - 2 ^ 63

/-- Go x shifted left by n on int64: multiply by 2 to the n and truncate
to 64 bits (shifts of 64 or more produce 0, which the truncation also
yields). -/
def shlInt64 (x : Int) (n : Nat) : Int := wrap64 (x * 2 ^ n)

/-- The value d computed by backoff before the random draw: clamp the
attempt at 0, shift base left by it on int64, then cap at max. -/
def clampedDelay (attempt base max : Int) : Int :=
  let a : Nat := (if attempt < 0 then 0 else attempt).toNat
  let d := shlInt64 base a
  if max < d then max else d

/-- backoff from the transport package. The random draw rand.Int63n is
abstracted as the function draw, which the runtime guarantees to satisfy
0 ≤ draw n < n when 0 < n; rand.Int63n panics when its bound is not
positive, modelled as none. -/
def backoff (attempt base max : Int) (draw : Int → Int) : Option Int :=
  let d := clampedDelay attempt base max
  if d ≤ 0 then none else some (draw d)

/-- The base backoff configured by Dial: 500ms in nanoseconds. -/
def baseBackoff : Int := 500000000

/-- The maximum backoff configured by Dial: 30s in nanoseconds. -/
def maxBackoff : Int := 30000000000

end Transport

/-! ## Definitions: transport read loop and frame channel (readLoop) -/

namespace Transport

/-- The frame channel between the read loop and the UI: the frames
currently buffered plus the frames the consumer has already received, in
order. -/
structure ChanState where
  buffer : List Str
  delivered : List Str
deriving DecidableEq, Repr

/-- One iteration of the read loop together with the consumer activity
that raced it: the consumer drains `consumed` frames, then the loop
receives `frame` from the connection and performs the non-blocking send. -/
structure Step where
  consumed : Nat
  frame : Str
deriving DecidableEq, Repr

/-- Execute one step: the consumer dequeues from the front of the buffer,
then the read loop does `select { case out <- frame: default: }` — the
frame is enqueued if the bounded buffer has room and silently dropped
otherwise. -/
def recvStep (cap : Nat) (c : ChanState) (st : Step) : ChanState :=
  let c1 : ChanState :=
    { buffer := c.buffer.drop st.consumed
      delivered := c.delivered ++ c.buffer.take st.consumed }
  if c1.buffer.length < cap then { c1 with buffer := c1.buffer ++ [st.frame] } else c1

/-- Run the read loop from a given channel state over a schedule. -/
def runFrom (cap : Nat) (c : ChanState) (steps : List Step) : ChanState :=
  steps.foldl (recvStep cap) c

/-- The read loop as wired by Dial: capacity-1024 channel, initially
empty. -/
def runReadLoop (steps : List Step) : ChanState :=
  runFrom 1024 ⟨[], []⟩ steps

end Transport

/-! ## Definitions: session startup validation (internal/ui/root.go Run
and transport Dial) -/

namespace Startup

/-- The parts of a parsed URL that Run and Dial inspect. -/
structure URLParts where
  scheme : Str
  host : Str
deriving DecidableEq, Repr

/-- The default endpoint substituted by Run for an empty string. -/
def defaultEndpoint : Str := "ws://127.0.0.1:12001".toList

/-- Outcome of the validation stage of Run: either the invalid-endpoint
error, returned before any connection attempt, or the dial attempt with
the effective endpoint. -/
inductive RunStart where
  | invalidEndpoint
  | dialAttempt (endpoint : Str)
deriving DecidableEq, Repr

/-- Run, up to the point where Dial is invoked: substitute the default for
an empty endpoint, parse it (url.Parse is the external parameter
parseURL, none meaning a parse error), and fail unless both scheme and
host are non-empty. -/
def runStart (parseURL : Str → Option URLParts) (endpoint : Str) : RunStart :=
  let ep := if endpoint.isEmpty then defaultEndpoint else endpoint
  match parseURL ep with
  | none => RunStart.invalidEndpoint
  | some u =>
      if u.scheme.isEmpty || u.host.isEmpty then RunStart.invalidEndpoint
      else RunStart.dialAttempt ep

/-- The up-front validation inside Dial (internal/transport): the same
parse-and-check, true when Dial proceeds past it. -/
def dialValidate (parseURL : Str → Option URLParts) (endpoint : Str) : Bool :=
  match parseURL endpoint with
  | none => false
  | some u => !(u.scheme.isEmpty || u.host.isEmpty)

/-- The specification notion of a well-formed endpoint: it parses as a URL
having both a non-empty scheme and a non-empty host. -/
def WellFormedURL (parseURL : Str → Option URLParts) (ep : Str) : Prop :=
  ∃ u, parseURL ep = some u ∧ u.scheme ≠ [] ∧ u.host ≠ []

/-- A concrete url.Parse stand-in used to exhibit satisfiability: it
parses exactly the default endpoint. -/
def parseDefaultOnly (s : Str) : Option URLParts :=
  if s = defaultEndpoint then some ⟨"ws".toList, "127.0.0.1:12001".toList⟩ else none

end Startup

/-! ## Definitions: message store and cursor engine (internal/ui) -/

namespace Ui

open Telemetry

/-- messageStore from internal/ui/store.go: messages separated by kind. -/
structure MessageStore where
  logs : List Telemetry.Message
  metrics : List Telemetry.Message
  traces : List Telemetry.Message
deriving DecidableEq, Repr

/-- messageStore.Add: metrics and traces go to their partitions, anything
else (logs and unknown) to the logs partition. -/
def MessageStore.Add (s : MessageStore) (m : Telemetry.Message) : MessageStore :=
  match m.Kind with
  | Kind.metrics => { s with metrics := s.metrics ++ [m] }
  | Kind.traces => { s with traces := s.traces ++ [m] }
  | _ => { s with logs := s.logs ++ [m] }

/-- messageStore.Messages. -/
def MessageStore.Messages (s : MessageStore) (k : Kind) : List Telemetry.Message :=
  match k with
  | Kind.metrics => s.metrics
  | Kind.traces => s.traces
  | _ => s.logs

/-- messageStore.TotalLines: sum of the display-line counts of the
partition. -/
def MessageStore.TotalLines (s : MessageStore) (k : Kind) : Nat :=
  (s.Messages k).foldl (fun n m => n + m.IndentedLines.length) 0

/-- cursorBuffer from internal/ui/model.go. -/
def cursorBuffer : Int := 3

/-- The slice of Model (internal/ui/model.go) the cursor engine acts on:
pause flag, cursor line, viewport offset and height, message store and
active kind. The cursor line and the offset are Go machine ints and may
go negative, hence Int. -/
structure UiModel where
  paused : Bool
  line : Int
  yoffset : Int
  height : Int
  store : MessageStore
  active : Kind
deriving DecidableEq, Repr

/-- Model.totalLines: the line total of the active kind. -/
def UiModel.totalLines (m : UiModel) : Nat := m.store.TotalLines m.active

/-- Number of content lines held by the external viewport after
SetContent: the store lines are joined with newlines, so an empty
partition still yields one (empty) line. -/
def contentLineCount (m : UiModel) : Nat :=
  if m.totalLines = 0 then 1 else m.totalLines

/-- maxYOffset of the external bubbletea viewport. -/
def maxYOffset (m : UiModel) : Int :=
  max 0 ((contentLineCount m : Int) - m.height)

/-- SetYOffset of the external bubbletea viewport: clamp into
[0, maxYOffset]. -/
def setYOffset (m : UiModel) (n : Int) : Int :=
  max 0 (min n (maxYOffset m))

/-- AtTop of the external bubbletea viewport. -/
def atTop (m : UiModel) : Bool := decide (m.yoffset ≤ 0)

/-- AtBottom of the external bubbletea viewport. -/
def atBottom (m : UiModel) : Bool := decide (maxYOffset m ≤ m.yoffset)

/-- VisibleLineCount of the external bubbletea viewport. -/
def visibleLineCount (m : UiModel) : Int :=
  let top := max 0 m.yoffset
  let bottom := max top (min (m.yoffset + m.height) (contentLineCount m : Int))
  bottom - top

/-- GotoBottom of the external bubbletea viewport. -/
def gotoBottom (m : UiModel) : UiModel := { m with yoffset := maxYOffset m }

/-- Model.cursorUp (internal/ui/model.go): floor the cursor at 0, and pull
the window up one line when the cursor comes within cursorBuffer of its
top edge. -/
def cursorUp (m : UiModel) : UiModel :=
  if m.line = 0 then m
  else
    let m1 := { m with line := m.line - 1 }
    if m1.line < m1.yoffset + cursorBuffer ∧ atTop m1 = false then
      { m1 with yoffset := setYOffset m1 (m1.yoffset - 1) }
    else m1

/-- Model.cursorDown (internal/ui/model.go): ceiling the cursor at
totalLines - 1, and push the window down one line near the bottom edge. -/
def cursorDown (m : UiModel) : UiModel :=
  if (m.totalLines : Int) - 1 ≤ m.line then m
  else
    let m1 := { m with line := m.line + 1 }
    let bottom := m1.yoffset + visibleLineCount m1 - cursorBuffer
    if bottom ≤ m1.line ∧ atBottom m1 = false then
      { m1 with yoffset := setYOffset m1 (m1.yoffset + 1) }
    else m1

/-- Model.ensureCursorVisible (internal/ui/model.go). -/
def ensureCursorVisible (m : UiModel) : UiModel :=
  if m.paused = false then m
  else if m.line < m.yoffset then { m with yoffset := setYOffset m m.line }
  else if m.yoffset + m.height ≤ m.line then
    { m with yoffset := setYOffset m (m.line - m.height + 1) }
  else m

/-- The cursor effect of Model.syncViewport (internal/ui/model.go lines
234-239): when the cursor line is at or past the line total, pull it back
to total - 1 — with no guard for an empty partition. -/
def syncClampCursor (m : UiModel) : UiModel :=
  if (m.totalLines : Int) ≤ m.line then { m with line := (m.totalLines : Int) - 1 }
  else m

/-- The paused tail of Model.Update (internal/ui/model.go lines 193-206)
for events the external viewport ignores (its offset delta is 0): restore
a negative cursor to 0, clamp to total - 1 when the partition is
non-empty, then ensureCursorVisible and the syncViewport clamp again. -/
def postUpdateClamp (m : UiModel) : UiModel :=
  if m.paused = true then
    let m1 := if m.line < 0 then { m with line := 0 } else m
    let m2 :=
      if 0 < m1.totalLines ∧ (m1.totalLines : Int) ≤ m1.line then
        { m1 with line := (m1.totalLines : Int) - 1 }
      else m1
    syncClampCursor (ensureCursorVisible m2)
  else m

/-- The full key-up transition while paused: cursorUp, ensureCursorVisible
and syncViewport, then the early return (no post-update tail). -/
def opCursorUp (m : UiModel) : UiModel :=
  syncClampCursor (ensureCursorVisible (cursorUp m))

/-- The full key-down transition while paused. -/
def opCursorDown (m : UiModel) : UiModel :=
  syncClampCursor (ensureCursorVisible (cursorDown m))

/-- The full switch-active-kind transition: set the active kind and
syncViewport, then fall through to the post-update tail (the switch keys
are not viewport keys, so the offset delta there is 0). -/
def opSwitchKind (k : Kind) (m : UiModel) : UiModel :=
  postUpdateClamp (syncClampCursor { m with active := k })

/-- The telemetry.Message arm of Model.Update (internal/ui/model.go lines
170-176): when not paused, add to the store, go to the bottom and
syncViewport; when paused, do nothing. Either way the update tail runs
(the viewport ignores a telemetry message, so its offset delta is 0). -/
def updateTelemetry (m : UiModel) (msg : Telemetry.Message) : UiModel :=
  postUpdateClamp
    (if m.paused = true then m
     else syncClampCursor (gotoBottom { m with store := m.store.Add msg }))

/-- A paused session whose partitions are all empty, the failing input for
the cursor-clamp claim. -/
def emptyPausedModel : UiModel :=
  { paused := true
    line := 0
    yoffset := 0
    height := 10
    store := ⟨[], [], []⟩
    active := Kind.logs }

end Ui

/-! ## Theorems: store contiguity and entry resolution -/

theorem splitNl_ne_nil (s : Str) : splitNl s ≠ [] := by
  induction s with
  | nil => simp [splitNl]
  | cons c cs ih =>
    by_cases h : c = '\n'
    · simp [splitNl, h]
    · cases hs : splitNl cs with
      | nil => exact absurd hs ih
      | cons l ls => simp [splitNl, h, hs]

theorem splitNl_length_pos (s : Str) : 0 < (splitNl s).length :=
  List.length_pos.mpr (splitNl_ne_nil s)

namespace App

theorem entriesOk_append (hk : Str → Str) (msg : Message) (es : List Entry) :
    ∀ n total : Nat, entriesOk hk n es total →
      entriesOk hk n
        (es ++ [⟨msg, total, total + (splitNl (hk msg.Pretty)).length, splitNl (hk msg.Pretty)⟩])
        (total + (splitNl (hk msg.Pretty)).length) := by
  induction es with
  | nil =>
    intro n total h
    simp only [entriesOk] at h
    subst h
    simp [entriesOk]
  | cons e es ih =>
    intro n total h
    simp only [entriesOk] at h ⊢
    exact ⟨h.1, h.2.1, h.2.2.1, ih _ _ h.2.2.2⟩

theorem Store.append_ok (hk : Str → Str) (s : Store) (msg : Message)
    (h : Store.Ok hk s) : Store.Ok hk (s.append hk msg) := by
  unfold Store.Ok Store.append
  simp only [List.length_append]
  exact entriesOk_append hk msg s.entries 0 s.lines.length h

theorem newStore_ok (hk : Str → Str) : Store.Ok hk newStore := by
  simp [Store.Ok, newStore, entriesOk]

theorem foldl_append_ok (hk : Str → Str) (msgs : List Message) :
    ∀ s : Store, Store.Ok hk s → Store.Ok hk (msgs.foldl (Store.append hk) s) := by
  induction msgs with
  | nil => intro s h; exact h
  | cons m ms ih =>
    intro s h
    exact ih _ (Store.append_ok hk s m h)

theorem buildStore_ok (hk : Str → Str) (msgs : List Message) :
    Store.Ok hk (buildStore hk msgs) :=
  foldl_append_ok hk msgs newStore (newStore_ok hk)

theorem entriesOk_le (hk : Str → Str) (es : List Entry) :
    ∀ n total : Nat, entriesOk hk n es total → n ≤ total := by
  induction es with
  | nil => intro n total h; simp only [entriesOk] at h; omega
  | cons e es ih =>
    intro n total h
    simp only [entriesOk] at h
    have := ih _ _ h.2.2.2
    omega

theorem entriesOk_mem (hk : Str → Str) (es : List Entry) :
    ∀ n total : Nat, entriesOk hk n es total → ∀ e ∈ es,
      n ≤ e.Start ∧ e.End ≤ total ∧
      e.lines = splitNl (hk e.Msg.Pretty) ∧ e.End = e.Start + e.lines.length := by
  induction es with
  | nil => intro n total _ e he; simp at he
  | cons a es ih =>
    intro n total h e he
    simp only [entriesOk] at h
    obtain ⟨h1, h2, h3, h4⟩ := h
    rcases List.mem_cons.mp he with rfl | he
    · have hle := entriesOk_le hk es _ _ h4
      exact ⟨by omega, by omega, h2, by omega⟩
    · obtain ⟨g1, g2, g3, g4⟩ := ih _ _ h4 e he
      exact ⟨by omega, g2, g3, g4⟩

theorem entriesOk_exists_mem (hk : Str → Str) (es : List Entry) :
    ∀ n total : Nat, entriesOk hk n es total →
      ∀ i : Int, (n : Int) ≤ i → i < (total : Int) →
        ∃ e ∈ es, (e.Start : Int) ≤ i ∧ i < (e.End : Int) := by
  induction es with
  | nil =>
    intro n total h i h0 h1
    simp only [entriesOk] at h
    exfalso; omega
  | cons a es ih =>
    intro n total h i h0 h1
    simp only [entriesOk] at h
    obtain ⟨ha1, ha2, ha3, ha4⟩ := h
    by_cases hc : i < (a.End : Int)
    · exact ⟨a, List.mem_cons_self a es, by omega, hc⟩
    · obtain ⟨e, he, hs, hE⟩ := ih _ _ ha4 i (by omega) h1
      exact ⟨e, List.mem_cons_of_mem a he, hs, hE⟩

theorem entriesOk_unique (hk : Str → Str) (es : List Entry) :
    ∀ n total : Nat, entriesOk hk n es total → ∀ i : Int,
      ∀ e1 ∈ es, ∀ e2 ∈ es,
        (e1.Start : Int) ≤ i → i < (e1.End : Int) →
        (e2.Start : Int) ≤ i → i < (e2.End : Int) → e1 = e2 := by
  induction es with
  | nil => intro n total _ i e1 he1; simp at he1
  | cons a es ih =>
    intro n total h i e1 he1 e2 he2 s1 E1 s2 E2
    simp only [entriesOk] at h
    obtain ⟨h1, h2, h3, h4⟩ := h
    rcases List.mem_cons.mp he1 with h1a | h1b
    · rcases List.mem_cons.mp he2 with h2a | h2b
      · rw [h1a, h2a]
      · subst h1a
        have := (entriesOk_mem hk es _ _ h4 e2 h2b).1
        exfalso; omega
    · rcases List.mem_cons.mp he2 with h2a | h2b
      · subst h2a
        have := (entriesOk_mem hk es _ _ h4 e1 h1b).1
        exfalso; omega
      · exact ih _ _ h4 i e1 h1b e2 h2b s1 E1 s2 E2

theorem messageForLine_in_range (hk : Str → Str) (s : Store) (h : Store.Ok hk s)
    (i : Int) (h0 : 0 ≤ i) (h1 : i < (s.totalLines : Int)) :
    ∃ e, s.messageForLine i = some e ∧ (e.Start : Int) ≤ i ∧ i < (e.End : Int) ∧
      ∀ e2 ∈ s.entries, (e2.Start : Int) ≤ i → i < (e2.End : Int) → e2 = e := by
  obtain ⟨e, he, hs, hE⟩ :=
    entriesOk_exists_mem hk s.entries 0 s.lines.length h i (by omega) h1
  have hex : ∃ x, x ∈ s.entries.reverse ∧
      (decide ((x.Start : Int) ≤ i) && decide (i < (x.End : Int))) = true :=
    ⟨e, List.mem_reverse.mpr he, by simp [hs, hE]⟩
  have hsome : (s.entries.reverse.find? fun e =>
      decide ((e.Start : Int) ≤ i) && decide (i < (e.End : Int))).isSome :=
    List.find?_isSome.mpr hex
  obtain ⟨e0, he0⟩ := Option.isSome_iff_exists.mp hsome
  have hp := List.find?_some he0
  have hmem : e0 ∈ s.entries := List.mem_reverse.mp (List.mem_of_find?_eq_some he0)
  simp only [Bool.and_eq_true, decide_eq_true_eq] at hp
  refine ⟨e0, he0, hp.1, hp.2, ?_⟩
  intro e2 hmem2 hs2 hE2
  exact entriesOk_unique hk s.entries 0 s.lines.length h i e2 hmem2 e0 hmem hs2 hE2 hp.1 hp.2

theorem messageForLine_out_of_range (hk : Str → Str) (s : Store) (h : Store.Ok hk s)
    (i : Int) (hout : i < 0 ∨ (s.totalLines : Int) ≤ i) :
    s.messageForLine i = none := by
  unfold Store.messageForLine
  apply List.find?_eq_none.mpr
  intro e he
  have hmem := entriesOk_mem hk s.entries 0 s.lines.length h e (List.mem_reverse.mp he)
  simp only [Bool.and_eq_true, decide_eq_true_eq, not_and]
  intro hs hE
  have hE2 := hmem.2.1
  unfold Store.totalLines at hout
  omega

end App

/-- C1: after every sequence of append operations on one kind's store, the
entry list is contiguous — the first Start is 0, each End meets the next
entry's Start, End minus Start is the number of display lines of the
message, and the last End equals the stored line total — and strictly
increasing (Start < End for every entry). -/
theorem store_append_contiguous (hk : Str → Str) (msgs : List App.Message) :
    App.entriesOk hk 0 (App.buildStore hk msgs).entries (App.buildStore hk msgs).totalLines ∧
    ∀ e ∈ (App.buildStore hk msgs).entries, e.Start < e.End := by
  refine ⟨App.buildStore_ok hk msgs, ?_⟩
  intro e he
  obtain ⟨-, -, hl, hE⟩ :=
    App.entriesOk_mem hk _ 0 _ (App.buildStore_ok hk msgs) e he
  have hpos : 0 < e.lines.length := hl ▸ splitNl_length_pos (hk e.Msg.Pretty)
  omega

/-- C2: on every store reachable by append operations, messageForLine
returns, for each index i with 0 ≤ i < totalLines, the unique entry whose
range contains i, and returns none for every negative index and every
index at or past totalLines. -/
theorem messageForLine_resolves (hk : Str → Str) (msgs : List App.Message) (i : Int) :
    (0 ≤ i → i < ((App.buildStore hk msgs).totalLines : Int) →
      ∃ e, (App.buildStore hk msgs).messageForLine i = some e ∧
        (e.Start : Int) ≤ i ∧ i < (e.End : Int) ∧
        ∀ e2 ∈ (App.buildStore hk msgs).entries,
          (e2.Start : Int) ≤ i → i < (e2.End : Int) → e2 = e) ∧
    (i < 0 ∨ ((App.buildStore hk msgs).totalLines : Int) ≤ i →
      (App.buildStore hk msgs).messageForLine i = none) := by
  constructor
  · intro h0 h1
    exact App.messageForLine_in_range hk _ (App.buildStore_ok hk msgs) i h0 h1
  · intro hout
    exact App.messageForLine_out_of_range hk _ (App.buildStore_ok hk msgs) i hout

/-- Witness for the entry-resolution theorem: on the store built from one
concrete message, index 0 is in range and resolves to its entry. -/
theorem messageForLine_resolves_witness :
    (0 ≤ (0 : Int) ∧ (0 : Int) < ((App.buildStore id [⟨['a']⟩]).totalLines : Int)) ∧
    ∃ e, (App.buildStore id [⟨['a']⟩]).messageForLine 0 = some e ∧
      (e.Start : Int) ≤ 0 ∧ (0 : Int) < (e.End : Int) ∧
      ∀ e2 ∈ (App.buildStore id [⟨['a']⟩]).entries,
        (e2.Start : Int) ≤ 0 → (0 : Int) < (e2.End : Int) → e2 = e :=
  ⟨⟨by decide, by decide⟩,
    (messageForLine_resolves id [⟨['a']⟩] 0).1 (by decide) (by decide)⟩

/-! ## Theorems: classifier -/

namespace Telemetry

theorem asMsg_kind (r : Str → Option Str) (k : Kind) (raw : Str) (mr : Option Str) :
    (asMsg r k raw mr).Kind = k := by
  cases mr <;> rfl

theorem pretty_ne_nil (r : Str → Option Str) (b : Str) : pretty r b ≠ [] := by
  unfold pretty
  cases r b with
  | some pb => exact splitNl_ne_nil pb
  | none => simp

theorem asMsg_lines_ne_nil (r : Str → Option Str) (k : Kind) (raw : Str)
    (mr : Option Str) : (asMsg r k raw mr).IndentedLines ≠ [] := by
  cases mr with
  | none => exact pretty_ne_nil r raw
  | some out => exact pretty_ne_nil r out

theorem tryKind_isSome_eq {α : Type} (r : Str → Option Str) (dec : Decoder α)
    (k : Kind) (data : Str) :
    (tryKind r dec k data).isSome = decodeOk dec data := by
  unfold tryKind decodeOk
  cases dec.unmarshal data with
  | none => rfl
  | some v =>
    by_cases h : 0 < dec.payloadLen v
    · simp [h]
    · simp [h]

theorem tryKind_kind {α : Type} (r : Str → Option Str) (dec : Decoder α)
    (k : Kind) (data : Str) (m : Message)
    (h : tryKind r dec k data = some m) : m.Kind = k := by
  unfold tryKind at h
  cases hu : dec.unmarshal data with
  | none => rw [hu] at h; cases h
  | some v =>
    simp only [hu] at h
    by_cases hp : 0 < dec.payloadLen v
    · rw [if_pos hp] at h
      cases h
      exact asMsg_kind r k data (dec.marshal v)
    · rw [if_neg hp] at h
      cases h

theorem tryKind_lines_ne_nil {α : Type} (r : Str → Option Str) (dec : Decoder α)
    (k : Kind) (data : Str) (m : Message)
    (h : tryKind r dec k data = some m) : m.IndentedLines ≠ [] := by
  unfold tryKind at h
  cases hu : dec.unmarshal data with
  | none => rw [hu] at h; cases h
  | some v =>
    simp only [hu] at h
    by_cases hp : 0 < dec.payloadLen v
    · rw [if_pos hp] at h
      cases h
      exact asMsg_lines_ne_nil r k data (dec.marshal v)
    · rw [if_neg hp] at h
      cases h

end Telemetry

/-- C3: the classifier tries logs, then metrics, then traces, in that
fixed order; the first kind whose decode succeeds with a non-empty
payload wins (decode failures and empty payloads fall through), and when
all three fail the frame is classified unknown and rendered as indented
generic JSON when parseable, otherwise as the raw bytes. The policy
classifySpec is written from the words of the specification and Parse is
proved to refine it. -/
theorem parse_first_match_policy {L M T : Type} (env : Telemetry.ParseEnv L M T)
    (data : Str) :
    (Telemetry.Parse env data).Kind = Telemetry.classifySpec env data ∧
    (Telemetry.classifySpec env data = Telemetry.Kind.unknown →
      (Telemetry.Parse env data).IndentedLines = Telemetry.pretty env.reindent data) := by
  cases hl : Telemetry.tryKind env.reindent env.logsDec Telemetry.Kind.logs data with
  | some m =>
    have hOk : Telemetry.decodeOk env.logsDec data = true := by
      rw [← Telemetry.tryKind_isSome_eq env.reindent env.logsDec Telemetry.Kind.logs data, hl]
      rfl
    constructor
    · simp only [Telemetry.Parse, Telemetry.classifySpec, hl, hOk, if_true]
      exact Telemetry.tryKind_kind env.reindent env.logsDec Telemetry.Kind.logs data m hl
    · intro hcl
      exfalso
      simp [Telemetry.classifySpec, hOk] at hcl
  | none =>
    have hOk : Telemetry.decodeOk env.logsDec data = false := by
      rw [← Telemetry.tryKind_isSome_eq env.reindent env.logsDec Telemetry.Kind.logs data, hl]
      rfl
    cases hm : Telemetry.tryKind env.reindent env.metricsDec Telemetry.Kind.metrics data with
    | some m =>
      have hOk2 : Telemetry.decodeOk env.metricsDec data = true := by
        rw [← Telemetry.tryKind_isSome_eq env.reindent env.metricsDec Telemetry.Kind.metrics data,
          hm]
        rfl
      constructor
      · simp only [Telemetry.Parse, Telemetry.classifySpec, hl, hm, hOk, hOk2,
          Bool.false_eq_true, if_false, if_true]
        exact Telemetry.tryKind_kind env.reindent env.metricsDec Telemetry.Kind.metrics data m hm
      · intro hcl
        exfalso
        simp [Telemetry.classifySpec, hOk, hOk2] at hcl
    | none =>
      have hOk2 : Telemetry.decodeOk env.metricsDec data = false := by
        rw [← Telemetry.tryKind_isSome_eq env.reindent env.metricsDec Telemetry.Kind.metrics data,
          hm]
        rfl
      cases ht : Telemetry.tryKind env.reindent env.tracesDec Telemetry.Kind.traces data with
      | some m =>
        have hOk3 : Telemetry.decodeOk env.tracesDec data = true := by
          rw [← Telemetry.tryKind_isSome_eq env.reindent env.tracesDec Telemetry.Kind.traces data,
            ht]
          rfl
        constructor
        · simp only [Telemetry.Parse, Telemetry.classifySpec, hl, hm, ht, hOk, hOk2, hOk3,
            Bool.false_eq_true, if_false, if_true]
          exact Telemetry.tryKind_kind env.reindent env.tracesDec Telemetry.Kind.traces data m ht
        · intro hcl
          exfalso
          simp [Telemetry.classifySpec, hOk, hOk2, hOk3] at hcl
      | none =>
        have hOk3 : Telemetry.decodeOk env.tracesDec data = false := by
          rw [← Telemetry.tryKind_isSome_eq env.reindent env.tracesDec Telemetry.Kind.traces data,
            ht]
          rfl
        constructor
        · simp only [Telemetry.Parse, Telemetry.classifySpec, hl, hm, ht, hOk, hOk2, hOk3,
            Bool.false_eq_true, if_false]
        · intro _
          simp only [Telemetry.Parse, hl, hm, ht]

/-- Witness for the classifier policy theorem: in a concrete environment
where every structured decode fails, the classification is unknown and
the rendering is the generic fallback. -/
theorem parse_first_match_policy_witness :
    Telemetry.classifySpec Telemetry.failEnv [] = Telemetry.Kind.unknown ∧
    (Telemetry.Parse Telemetry.failEnv []).IndentedLines =
      Telemetry.pretty Telemetry.failEnv.reindent [] :=
  ⟨rfl, (parse_first_match_policy Telemetry.failEnv []).2 rfl⟩

/-- C10: Parse is total — for every input frame it returns a Message with
no error branch, the kind is one of logs, metrics, traces or unknown, and
the indented line list is never empty, so every stored message
contributes at least one display line. -/
theorem parse_total_nonempty_lines {L M T : Type} (env : Telemetry.ParseEnv L M T)
    (data : Str) :
    (Telemetry.Parse env data).IndentedLines ≠ [] ∧
    ((Telemetry.Parse env data).Kind = Telemetry.Kind.logs ∨
     (Telemetry.Parse env data).Kind = Telemetry.Kind.metrics ∨
     (Telemetry.Parse env data).Kind = Telemetry.Kind.traces ∨
     (Telemetry.Parse env data).Kind = Telemetry.Kind.unknown) := by
  constructor
  · unfold Telemetry.Parse
    cases hl : Telemetry.tryKind env.reindent env.logsDec Telemetry.Kind.logs data with
    | some m => exact Telemetry.tryKind_lines_ne_nil _ _ _ _ m hl
    | none =>
      cases hm : Telemetry.tryKind env.reindent env.metricsDec Telemetry.Kind.metrics data with
      | some m => exact Telemetry.tryKind_lines_ne_nil _ _ _ _ m hm
      | none =>
        cases ht : Telemetry.tryKind env.reindent env.tracesDec Telemetry.Kind.traces data with
        | some m => exact Telemetry.tryKind_lines_ne_nil _ _ _ _ m ht
        | none => exact Telemetry.pretty_ne_nil env.reindent data
  · cases hK : (Telemetry.Parse env data).Kind
    · exact Or.inl rfl
    · exact Or.inr (Or.inl rfl)
    · exact Or.inr (Or.inr (Or.inl rfl))
    · exact Or.inr (Or.inr (Or.inr rfl))

/-! ## Theorems: backoff policy -/

/-- C4 (code bug): at attempt 35 with the configured base (500ms) and cap
(30s), the 64-bit shift base << attempt overflows to a negative value,
the cap test d > max is skipped (a negative d is not greater than max),
and rand.Int63n receives a non-positive bound, on which it panics: for
every possible random draw the code panics (modelled as none) instead of
returning a delay bounded by min(base times 2^attempt, cap). -/
theorem backoff_attempt35_panics (draw : Int → Int) :
    Transport.backoff 35 Transport.baseBackoff Transport.maxBackoff draw = none := by
  rfl

/-- Counterexample to the claimed zero-guard: with base 0 the clamped
exponential value is 0, and backoff panics on the zero-range random draw
(rand.Int63n with bound 0, modelled as none) instead of returning a delay
of 0. -/
theorem backoff_zero_base_panics :
    Transport.backoff 0 0 Transport.maxBackoff (fun _ => 0) = none := by
  decide

/-- C5 (amended): backoff does treat a negative attempt as 0, but it has
no zero-range guard: whenever the clamped exponential value is not
positive (for example when base is 0) it panics on the random draw, and
it returns a delay (the draw over the clamped value) exactly when the
clamped value is positive. -/
theorem backoff_negative_attempt_and_partiality (attempt base max : Int)
    (draw : Int → Int) :
    (attempt < 0 →
      Transport.backoff attempt base max draw = Transport.backoff 0 base max draw) ∧
    (Transport.clampedDelay attempt base max ≤ 0 →
      Transport.backoff attempt base max draw = none) ∧
    (0 < Transport.clampedDelay attempt base max →
      Transport.backoff attempt base max draw =
        some (draw (Transport.clampedDelay attempt base max))) := by
  refine ⟨?_, ?_, ?_⟩
  · intro h
    have ha : (if attempt < 0 then (0 : Int) else attempt) =
        (if (0 : Int) < 0 then (0 : Int) else 0) := by
      rw [if_pos h, if_neg (lt_irrefl 0)]
    unfold Transport.backoff Transport.clampedDelay
    rw [ha]
  · intro h
    show (if Transport.clampedDelay attempt base max ≤ 0 then none
          else some (draw (Transport.clampedDelay attempt base max))) = none
    rw [if_pos h]
  · intro h
    show (if Transport.clampedDelay attempt base max ≤ 0 then none
          else some (draw (Transport.clampedDelay attempt base max))) =
        some (draw (Transport.clampedDelay attempt base max))
    rw [if_neg (by omega)]

/-- Witness for the amended backoff theorem: attempt -1 behaves as attempt
0, and with base 500 and cap 1000 the clamped value 500 is positive, so
the draw is returned. -/
theorem backoff_negative_attempt_witness :
    ((-1 : Int) < 0 ∧
      Transport.backoff (-1) 500 1000 (fun _ => 7) =
        Transport.backoff 0 500 1000 (fun _ => 7)) ∧
    (0 < Transport.clampedDelay (-1) 500 1000 ∧
      Transport.backoff (-1) 500 1000 (fun _ => 7) = some 7) :=
  ⟨⟨by decide, (backoff_negative_attempt_and_partiality (-1) 500 1000 (fun _ => 7)).1
      (by decide)⟩,
   ⟨by decide, (backoff_negative_attempt_and_partiality (-1) 500 1000 (fun _ => 7)).2.2
      (by decide)⟩⟩

/-! ## Theorems: transport read loop ordering and capacity -/

namespace Transport

theorem recvStep_delivered_buffer (cap : Nat) (c : ChanState) (st : Step) :
    List.Sublist ((recvStep cap c st).delivered ++ (recvStep cap c st).buffer)
      ((c.delivered ++ c.buffer) ++ [st.frame]) := by
  have hsplit : c.delivered ++ c.buffer.take st.consumed ++ c.buffer.drop st.consumed
      = c.delivered ++ c.buffer := by
    rw [List.append_assoc, List.take_append_drop]
  by_cases hlt : (c.buffer.drop st.consumed).length < cap
  · simp only [recvStep, hlt, if_pos]
    have heq : c.delivered ++ c.buffer.take st.consumed ++ (c.buffer.drop st.consumed ++ [st.frame])
        = (c.delivered ++ c.buffer) ++ [st.frame] := by
      rw [← List.append_assoc, hsplit]
    rw [heq]
  · simp only [recvStep, hlt, if_neg, if_false]
    rw [hsplit]
    exact List.sublist_append_left _ _

theorem runFrom_cons (cap : Nat) (c : ChanState) (st : Step) (rest : List Step) :
    runFrom cap c (st :: rest) = runFrom cap (recvStep cap c st) rest := rfl

theorem runFrom_sublist (cap : Nat) (steps : List Step) :
    ∀ c : ChanState,
      List.Sublist ((runFrom cap c steps).delivered ++ (runFrom cap c steps).buffer)
        ((c.delivered ++ c.buffer) ++ steps.map Step.frame) := by
  induction steps with
  | nil =>
    intro c
    simp only [runFrom, List.foldl_nil, List.map_nil, List.append_nil]
    exact List.Sublist.refl _
  | cons st rest ih =>
    intro c
    rw [runFrom_cons]
    refine (ih (recvStep cap c st)).trans ?_
    have h3 := (recvStep_delivered_buffer cap c st).append_right (rest.map Step.frame)
    have heq : ((c.delivered ++ c.buffer) ++ [st.frame]) ++ rest.map Step.frame
        = (c.delivered ++ c.buffer) ++ (st :: rest).map Step.frame := by
      simp [List.append_assoc]
    exact heq ▸ h3

theorem recvStep_length (cap : Nat) (c : ChanState) (st : Step)
    (h : c.buffer.length ≤ cap) : (recvStep cap c st).buffer.length ≤ cap := by
  by_cases hlt : c.buffer.length - st.consumed < cap
  · have hb : (recvStep cap c st).buffer = c.buffer.drop st.consumed ++ [st.frame] := by
      simp [recvStep, hlt]
    rw [hb, List.length_append, List.length_cons, List.length_nil, List.length_drop]
    omega
  · have hb : (recvStep cap c st).buffer = c.buffer.drop st.consumed := by
      simp [recvStep, hlt]
    rw [hb, List.length_drop]
    omega

theorem runFrom_length (cap : Nat) (steps : List Step) :
    ∀ c : ChanState, c.buffer.length ≤ cap →
      (runFrom cap c steps).buffer.length ≤ cap := by
  induction steps with
  | nil => intro c h; exact h
  | cons st rest ih =>
    intro c h
    rw [runFrom_cons]
    exact ih _ (recvStep_length cap c st h)

end Transport

/-- C8: the read loop delivers frames in connection order — starting from
an empty capacity-1024 channel, over every schedule of receives and
consumer drains, the frames the consumer has received are a subsequence
of the frames received from the connection (no reordering), the received
plus still-buffered frames together are such a subsequence as well (each
frame is either sent on or silently dropped), and the buffer never holds
more than 1024 frames. -/
theorem readLoop_subsequence_and_capacity (steps : List Transport.Step) :
    List.Sublist (Transport.runReadLoop steps).delivered
      (steps.map Transport.Step.frame) ∧
    List.Sublist
      ((Transport.runReadLoop steps).delivered ++ (Transport.runReadLoop steps).buffer)
      (steps.map Transport.Step.frame) ∧
    (Transport.runReadLoop steps).buffer.length ≤ 1024 := by
  have h := Transport.runFrom_sublist 1024 steps ⟨[], []⟩
  simp only [List.nil_append] at h
  have hlen : (Transport.runReadLoop steps).buffer.length ≤ 1024 :=
    Transport.runFrom_length 1024 steps ⟨[], []⟩ (by simp)
  exact ⟨(List.sublist_append_left _ _).trans h, h, hlen⟩

/-! ## Theorems: session startup validation -/

/-- C9: Run fails with the invalid-endpoint error, before any connection
attempt, exactly when the endpoint (after substituting the default for an
empty string) does not parse as a URL with both a non-empty scheme and a
non-empty host; and for every well-formed endpoint the validation passes,
the dial is attempted on that endpoint, and the identical up-front check
inside Dial passes as well. -/
theorem run_invalid_endpoint_iff (parseURL : Str → Option Startup.URLParts)
    (endpoint : Str) :
    (Startup.runStart parseURL endpoint = Startup.RunStart.invalidEndpoint ↔
      ¬ Startup.WellFormedURL parseURL
          (if endpoint.isEmpty then Startup.defaultEndpoint else endpoint)) ∧
    (Startup.WellFormedURL parseURL
        (if endpoint.isEmpty then Startup.defaultEndpoint else endpoint) →
      Startup.runStart parseURL endpoint =
        Startup.RunStart.dialAttempt
          (if endpoint.isEmpty then Startup.defaultEndpoint else endpoint) ∧
      Startup.dialValidate parseURL
        (if endpoint.isEmpty then Startup.defaultEndpoint else endpoint) = true) := by
  have hrun : Startup.runStart parseURL endpoint =
      (match parseURL (if endpoint.isEmpty then Startup.defaultEndpoint else endpoint) with
       | none => Startup.RunStart.invalidEndpoint
       | some u =>
           if u.scheme.isEmpty || u.host.isEmpty then Startup.RunStart.invalidEndpoint
           else Startup.RunStart.dialAttempt
             (if endpoint.isEmpty then Startup.defaultEndpoint else endpoint)) := rfl
  rw [hrun]
  cases hp : parseURL (if endpoint.isEmpty then Startup.defaultEndpoint else endpoint) with
  | none =>
    constructor
    · constructor
      · intro _ hw
        obtain ⟨u, hu, -, -⟩ := hw
        rw [hp] at hu
        cases hu
      · intro _
        rfl
    · intro hw
      obtain ⟨u, hu, -, -⟩ := hw
      rw [hp] at hu
      cases hu
  | some u =>
    by_cases hb : (u.scheme.isEmpty || u.host.isEmpty) = true
    · simp only [hb, if_true]
      constructor
      · constructor
        · intro _ hw
          obtain ⟨u2, hu2, hsch, hhost⟩ := hw
          rw [hp] at hu2
          cases hu2
          rcases Bool.or_eq_true_iff.mp hb with he | he
          · exact hsch (List.isEmpty_iff.mp he)
          · exact hhost (List.isEmpty_iff.mp he)
        · intro _
          trivial
      · intro hw
        exfalso
        obtain ⟨u2, hu2, hsch, hhost⟩ := hw
        rw [hp] at hu2
        cases hu2
        rcases Bool.or_eq_true_iff.mp hb with he | he
        · exact hsch (List.isEmpty_iff.mp he)
        · exact hhost (List.isEmpty_iff.mp he)
    · have hb2 : (u.scheme.isEmpty || u.host.isEmpty) = false :=
        Bool.not_eq_true _ ▸ Bool.of_not_eq_true hb
      rw [Bool.or_eq_false_iff] at hb2
      have hwf : Startup.WellFormedURL parseURL
          (if endpoint.isEmpty then Startup.defaultEndpoint else endpoint) := by
        refine ⟨u, hp, ?_, ?_⟩
        · intro hnil
          rw [hnil] at hb2
          simp at hb2
        · intro hnil
          rw [hnil] at hb2
          simp at hb2
      have hbfalse : (u.scheme.isEmpty || u.host.isEmpty) = false := by
        rw [Bool.or_eq_false_iff]
        exact hb2
      simp only [hbfalse, if_false]
      constructor
      · constructor
        · intro hcon
          cases hcon
        · intro hcon
          exact absurd hwf hcon
      · intro _
        refine ⟨rfl, ?_⟩
        unfold Startup.dialValidate
        rw [hp]
        show (!(u.scheme.isEmpty || u.host.isEmpty)) = true
        rw [hbfalse]
        rfl

/-- Witness for the startup validation theorem: with a parser that accepts
exactly the default endpoint, the empty endpoint string is substituted,
validates, and leads to the dial attempt, whose own check also passes. -/
theorem run_invalid_endpoint_iff_witness :
    Startup.WellFormedURL Startup.parseDefaultOnly Startup.defaultEndpoint ∧
    (Startup.runStart Startup.parseDefaultOnly [] =
      Startup.RunStart.dialAttempt Startup.defaultEndpoint ∧
     Startup.dialValidate Startup.parseDefaultOnly Startup.defaultEndpoint = true) := by
  have hw : Startup.WellFormedURL Startup.parseDefaultOnly Startup.defaultEndpoint :=
    ⟨⟨"ws".toList, "127.0.0.1:12001".toList⟩, by decide, by decide, by decide⟩
  exact ⟨hw, (run_invalid_endpoint_iff Startup.parseDefaultOnly []).2 hw⟩

/-! ## Theorems: cursor engine and pause freeze -/

namespace Ui

theorem syncClampCursor_store (m : UiModel) : (syncClampCursor m).store = m.store := by
  unfold syncClampCursor
  split_ifs <;> rfl

theorem syncClampCursor_paused (m : UiModel) : (syncClampCursor m).paused = m.paused := by
  unfold syncClampCursor
  split_ifs <;> rfl

theorem ensureCursorVisible_store (m : UiModel) :
    (ensureCursorVisible m).store = m.store := by
  unfold ensureCursorVisible
  split_ifs <;> rfl

theorem ensureCursorVisible_paused (m : UiModel) :
    (ensureCursorVisible m).paused = m.paused := by
  unfold ensureCursorVisible
  split_ifs <;> rfl

theorem postUpdateClamp_store (m : UiModel) : (postUpdateClamp m).store = m.store := by
  unfold postUpdateClamp
  split_ifs <;>
    simp only [syncClampCursor_store, ensureCursorVisible_store] <;>
    first
    | rfl
    | (split_ifs <;> rfl)

theorem postUpdateClamp_paused (m : UiModel) :
    (postUpdateClamp m).paused = m.paused := by
  unfold postUpdateClamp
  split_ifs <;>
    simp only [syncClampCursor_paused, ensureCursorVisible_paused] <;>
    first
    | rfl
    | (split_ifs <;> rfl)

theorem updateTelemetry_paused (m : UiModel) (msg : Telemetry.Message)
    (h : m.paused = true) :
    (updateTelemetry m msg).store = m.store ∧ (updateTelemetry m msg).paused = true := by
  unfold updateTelemetry
  rw [if_pos h]
  exact ⟨postUpdateClamp_store m, by rw [postUpdateClamp_paused]; exact h⟩

end Ui

/-- C7: while the UI is paused, arriving classified messages are dropped,
not stored: for every sequence of arrivals processed while paused, the
message store — and with it the line count of every kind partition — is
exactly unchanged. -/
theorem paused_arrivals_leave_store_unchanged (m : Ui.UiModel)
    (msgs : List Telemetry.Message) (h : m.paused = true) :
    (msgs.foldl Ui.updateTelemetry m).store = m.store ∧
    ∀ k, (msgs.foldl Ui.updateTelemetry m).store.TotalLines k = m.store.TotalLines k := by
  have hstore : ∀ m2 : Ui.UiModel, m2.paused = true →
      (msgs.foldl Ui.updateTelemetry m2).store = m2.store := by
    induction msgs with
    | nil => intro m2 _; rfl
    | cons a ms ih =>
      intro m2 h2
      have h1 := Ui.updateTelemetry_paused m2 a h2
      calc (ms.foldl Ui.updateTelemetry (Ui.updateTelemetry m2 a)).store
          = (Ui.updateTelemetry m2 a).store := ih _ h1.2
        _ = m2.store := h1.1
  refine ⟨hstore m h, ?_⟩
  intro k
  rw [hstore m h]

/-- Witness for the pause-freeze theorem: a concrete paused session with
empty partitions stays empty across one arrival. -/
theorem paused_arrivals_witness :
    ({ paused := true, line := 0, yoffset := 0, height := 10,
       store := ⟨[], [], []⟩, active := Telemetry.Kind.logs } : Ui.UiModel).paused = true ∧
    (([⟨Telemetry.Kind.logs, [['a']]⟩] : List Telemetry.Message).foldl Ui.updateTelemetry
        { paused := true, line := 0, yoffset := 0, height := 10,
          store := ⟨[], [], []⟩, active := Telemetry.Kind.logs }).store =
      (⟨[], [], []⟩ : Ui.MessageStore) :=
  ⟨rfl, (paused_arrivals_leave_store_unchanged _ _ rfl).1⟩

/-- C6 (code bug): the cursor-clamp invariant 0 ≤ cursor.line <
max(1, totalLines(activeKind)) fails — switching the active kind to a
partition with no stored lines while paused runs the syncViewport clamp
(line := totalLines - 1) without a guard for totalLines = 0, so from the
valid state with cursor line 0 a single switch operation leaves the
cursor line at -1, where the claim requires it to stay at 0. -/
theorem switch_empty_kind_cursor_negative :
    (Ui.opSwitchKind Telemetry.Kind.logs Ui.emptyPausedModel).line = -1 := by
  decide
